import Mathlib

/-!
# A shallow embedding of the qmanager job queue (src/job_queue.rs,
# src/daemon.rs, src/state.rs)

Machine integers (`u64` ids, `u32` pids, `i32` exit codes / signals) are
modelled as `Nat` / `Int`; none of the verified claims depends on wrap-around
behaviour.  Wall-clock time (`SystemTime::now()`) is passed explicitly as a
parameter to the operations that read the clock.  A Rust `panic!` aborts the
daemon, so fallible operations return a `PanicOr` value whose `panic`
constructor marks abortion (the formatted panic message is not modelled).
-/

/-- `std::time::SystemTime`, as serialized by serde: seconds and nanoseconds
since the epoch. -/
structure SystemTime where
  secs : Nat
  nanos : Nat
deriving DecidableEq, Repr

/-- `JobState` from src/job_queue.rs. -/
inductive JobState where
  /-- queued and waiting for execution -/
  | Queued
  /-- currently running (top of the queue) -/
  | Running
  /-- the process has exited with the given value -/
  | Terminated (code : Int)
  /-- the process has been killed by the given signal -/
  | Killed (signal : Int)
  /-- the process could not be launched or was aborted -/
  | Failed (reason : String)
deriving DecidableEq, Repr

/-- `FailReason` from src/job_queue.rs. -/
inductive FailReason where
  | WrongJobState
  | NoSuchJob
deriving DecidableEq, Repr

/-- `QueueState` from src/job_queue.rs. -/
inductive QueueState where
  | Running
  | Stopping
  | Stopped
deriving DecidableEq, Repr

/-- `Job` from src/job_queue.rs. -/
structure Job where
  id : Nat
  cmdline : String
  scheduled : SystemTime
  started : Option SystemTime
  finished : Option SystemTime
  stderr : String
  stdout : String
  state : JobState
  pid : Option Nat
deriving DecidableEq, Repr

/-- `JobQueue` from src/job_queue.rs. -/
structure JobQueue where
  last_id : Nat
  state : QueueState
  queue : List Job
  finished : List Job
deriving DecidableEq, Repr

/-- Result of a Rust function that may `panic!`: `panic` aborts the daemon. -/
inductive PanicOr (α : Type) where
  | panic
  | ok (a : α)
deriving DecidableEq, Repr

/-- `JobQueue::new` (src/job_queue.rs line 96). -/
def JobQueue.new (last_id : Nat) : JobQueue :=
  { last_id := last_id, state := QueueState.Running, queue := [], finished := [] }

/-- `JobQueue::set_state` (src/job_queue.rs line 121): a request to go
`Stopping` on an empty queue is coerced to `Stopped`. -/
def JobQueue.set_state (q : JobQueue) (new_state : QueueState) : JobQueue :=
  let ns :=
    if new_state = QueueState.Stopping ∧ q.queue = [] then QueueState.Stopped
    else new_state
  { q with state := ns }

/-- `JobQueue::submit` (src/job_queue.rs line 165): assigns `last_id + 1`,
appends a `Queued` job, returns the new id.  The Rust method mutates `self`
and returns the id; here the updated queue is returned alongside. -/
def JobQueue.submit (q : JobQueue) (cmdline : String) (now : SystemTime) :
    JobQueue × Nat :=
  let job : Job :=
    { id := q.last_id + 1, cmdline := cmdline, scheduled := now,
      started := none, finished := none, stderr := "", stdout := "",
      state := JobState.Queued, pid := none }
  ({ q with last_id := q.last_id + 1, queue := q.queue ++ [job] },
   q.last_id + 1)

/-- `JobQueue::schedule` (src/job_queue.rs line 185): if the queue state is
`Running`, mutate the head (whatever its job state) to `Running` with
`started = now` and return a clone of it; otherwise return `none`. -/
def JobQueue.schedule (q : JobQueue) (now : SystemTime) :
    JobQueue × Option Job :=
  if q.state = QueueState.Running then
    match q.queue with
    | [] => (q, none)
    | j :: rest =>
      let j' := { j with started := some now, state := JobState.Running }
      ({ q with queue := j' :: rest }, some j')
  else (q, none)

/-- `JobQueue::assign_pid` (src/job_queue.rs line 236): set the pid on the
first job that is `Running` with a matching id; silently no-op otherwise. -/
def assignPidList : List Job → Nat → Nat → List Job
  | [], _, _ => []
  | j :: rest, jobid, pid =>
    if j.state = JobState.Running ∧ j.id = jobid then
      { j with pid := some pid } :: rest
    else j :: assignPidList rest jobid pid

/-- `JobQueue::assign_pid` wrapper on the whole queue. -/
def JobQueue.assign_pid (q : JobQueue) (jobid pid : Nat) : JobQueue :=
  { q with queue := assignPidList q.queue jobid pid }

/-- The observable outcome of `JobQueue::send_sigterm`
(src/job_queue.rs line 198) up to the external `/bin/kill` invocation. -/
inductive SigtermOutcome where
  /-- a matching `Running` job was found but its `pid` is `None`:
  `job.pid.unwrap()` panics -/
  | panicNoPid
  /-- a matching `Running` job with a recorded pid was found: `/bin/kill`
  is executed on that pid (its exit status decides `Ok` vs `Err`) -/
  | exec (pid : Nat)
  /-- no `Running` job with the given id exists:
  `Err(Error::from(ErrorKind::InvalidInput))` -/
  | errNotFound
deriving DecidableEq, Repr

/-- `JobQueue::send_sigterm` (src/job_queue.rs line 198): find the first job
with `state == Running && id == jobid`; if present, unwrap its pid (panicking
when absent) and run `/bin/kill`; otherwise return `InvalidInput`. -/
def JobQueue.send_sigterm_outcome (q : JobQueue) (jobid : Nat) :
    SigtermOutcome :=
  match q.queue.find?
      (fun j => decide (j.state = JobState.Running) && decide (j.id = jobid))
      with
  | some job =>
    match job.pid with
    | none => SigtermOutcome.panicNoPid
    | some pid => SigtermOutcome.exec pid
  | none => SigtermOutcome.errNotFound

/-- `JobQueue::finish` (src/job_queue.rs line 248): on an empty queue, log and
return `None`; otherwise remove the head, panic if it is not `Running`, else
stamp `finished = now`, set the new state and outputs, push it to `finished`,
coerce queue state `Stopping → Stopped`, and return the job. -/
def JobQueue.finish (q : JobQueue) (new_state : JobState)
    (stdout stderr : String) (now : SystemTime) :
    PanicOr (JobQueue × Option Job) :=
  match q.queue with
  | [] => PanicOr.ok (q, none)
  | j :: rest =>
    if j.state = JobState.Running then
      let j' := { j with
                  finished := some now, state := new_state,
                  stdout := stdout, stderr := stderr }
      let st := if q.state = QueueState.Stopping then QueueState.Stopped
                else q.state
      PanicOr.ok
        ({ q with state := st, queue := rest, finished := q.finished ++ [j'] },
         some j')
    else PanicOr.panic

/-- First pass of `JobQueue::remove` (src/job_queue.rs line 281): scan a list
for the first job with the given id and remove it, keeping the order of the
remaining jobs — exactly what the index scan followed by `Vec::remove(index)`
does. -/
def removeFirstById : List Job → Nat → Option (Job × List Job)
  | [], _ => none
  | j :: rest, id =>
    if j.id = id then some (j, rest)
    else
      match removeFirstById rest id with
      | some (x, rest') => some (x, j :: rest')
      | none => none

/-- Second pass of `JobQueue::remove` (src/job_queue.rs line 294): scan the
queued jobs; at the first id match, fail with `WrongJobState` if it is
`Running`, otherwise remove it (again scan + `Vec::remove(index)`). -/
def removeQueuedById : List Job → Nat → Except FailReason (Job × List Job)
  | [], _ => Except.error FailReason.NoSuchJob
  | j :: rest, id =>
    if j.id = id then
      if j.state = JobState.Running then Except.error FailReason.WrongJobState
      else Except.ok (j, rest)
    else
      match removeQueuedById rest id with
      | Except.ok (x, rest') => Except.ok (x, j :: rest')
      | Except.error e => Except.error e

/-- `JobQueue::remove` (src/job_queue.rs line 277): search `finished` first,
then `queue`.  The Rust method mutates `self` and returns
`Result<Job, FailReason>`; here the (possibly unchanged) queue is returned
alongside the result. -/
def JobQueue.remove (q : JobQueue) (id : Nat) :
    JobQueue × Except FailReason Job :=
  match removeFirstById q.finished id with
  | some (j, fin') => ({ q with finished := fin' }, Except.ok j)
  | none =>
    match removeQueuedById q.queue id with
    | Except.ok (j, qu') => ({ q with queue := qu' }, Except.ok j)
    | Except.error e => (q, Except.error e)

/-- `JobQueue::reset_first_job` (src/job_queue.rs line 136): if the head
exists and is not `Queued`, either clear it back to `Queued`, or finish it as
`Failed`, or panic on the forbidden target states. -/
def JobQueue.reset_first_job (q : JobQueue) (new_state : JobState)
    (now : SystemTime) : PanicOr JobQueue :=
  match q.queue with
  | [] => PanicOr.ok q
  | j :: rest =>
    if j.state = JobState.Queued then PanicOr.ok q
    else
      match new_state with
      | JobState.Running | JobState.Killed _ | JobState.Terminated _ =>
        PanicOr.panic
      | JobState.Queued =>
        PanicOr.ok
          { q with queue :=
              { j with
                started := none, state := JobState.Queued,
                pid := none, stderr := "", stdout := "" } :: rest }
      | JobState.Failed s =>
        match q.finish (JobState.Failed s) "" "" now with
        | PanicOr.ok (q', _) => PanicOr.ok q'
        | PanicOr.panic => PanicOr.panic

/-! ## Daemon layer (src/daemon.rs) -/

/-- The recovery message passed by `handle` (src/daemon.rs line 470); note the
source spells "assistence". -/
def interruptedMsg : String :=
  "Interrupted by system failure, please re-submit or ask for assistence"

/-- Startup recovery (src/daemon.rs lines 462-473): depending on the loaded
queue state, leave the queue alone or reset its first job. -/
def recover (q : JobQueue) (now : SystemTime) : PanicOr JobQueue :=
  match q.state with
  | QueueState.Stopped => PanicOr.ok q
  | QueueState.Stopping => q.reset_first_job JobState.Queued now
  | QueueState.Running =>
    q.reset_first_job (JobState.Failed interruptedMsg) now

/-- The request union handled by `handle_client` (src/daemon.rs line 123;
the `Request` enum variants matched there). -/
inductive Request where
  | GetQueuedJobs
  | GetQueueState
  | SetQueueState (s : QueueState)
  | GetFinishedJobs
  | RemoveJob (id : Nat)
  | KillJob (id : Nat)
  | SubmitJob (cmdline : String)
deriving DecidableEq, Repr

/-- Alias so that the `Response` constructor named `QueueState` can still
refer to the `QueueState` type in its argument. -/
abbrev QState := QueueState

/-- The response union produced by `handle_client`. -/
inductive Response where
  | GetJobs (jobs : List Job)
  | QueueState (s : QState)
  | GetJob (j : Job)
  | Error (msg : String)
  | SubmitJob (id : Nat)
  | Ok
deriving DecidableEq, Repr

/-- Exit status of the external `/bin/kill` command (only relevant for
`KillJob` requests whose target has a recorded pid). -/
inductive KillResult where
  | exit (code : Int)
  | noCode
deriving DecidableEq, Repr

/-- The queue mutation and `(status, response)` pair computed by
`handle_client` (src/daemon.rs lines 123-221) for a parsed request; I/O
(locking, state saving, HTTP framing) is elided.  `KillJob` may hit the
`pid.unwrap()` panic inside `send_sigterm`. -/
def dispatch (req : Request) (q : JobQueue) (now : SystemTime)
    (kill : KillResult) : PanicOr (JobQueue × Nat × Response) :=
  match req with
  | Request.GetQueuedJobs =>
    PanicOr.ok (q, 200, Response.GetJobs q.queue)
  | Request.GetQueueState =>
    PanicOr.ok (q, 200, Response.QueueState q.state)
  | Request.SetQueueState s =>
    PanicOr.ok (q.set_state s, 200, Response.QueueState s)
  | Request.GetFinishedJobs =>
    PanicOr.ok (q, 200, Response.GetJobs q.finished)
  | Request.RemoveJob id =>
    match q.remove id with
    | (q', Except.ok job) => PanicOr.ok (q', 200, Response.GetJob job)
    | (q', Except.error FailReason.NoSuchJob) =>
      PanicOr.ok (q', 422, Response.Error "No such job")
    | (q', Except.error FailReason.WrongJobState) =>
      PanicOr.ok (q', 422,
        Response.Error "Job is currently running and cannot be removed")
  | Request.KillJob id =>
    match q.send_sigterm_outcome id with
    | SigtermOutcome.panicNoPid => PanicOr.panic
    | SigtermOutcome.errNotFound =>
      PanicOr.ok (q, 422, Response.Error "Job is currently not running.")
    | SigtermOutcome.exec _ =>
      match kill with
      | KillResult.exit 0 => PanicOr.ok (q, 200, Response.Ok)
      | _ =>
        PanicOr.ok (q, 422, Response.Error "Job is currently not running.")
  | Request.SubmitJob cmdline =>
    let (q', id) := q.submit cmdline now
    PanicOr.ok (q', 200, Response.SubmitJob id)

/-! ## Persistence (src/state.rs)

`State::save` writes `serde_json::to_writer_pretty(f, q)` and `load_queue`
parses the file back with `serde_json::from_str`, falling back to
`JobQueue::new(0)` when parsing fails.  The JSON documents produced and
consumed by serde's derived (externally tagged) implementations for the
types above are modelled as `Json` trees; the text printing/parsing layer of
serde_json, which is value-faithful, is elided. -/

/-- A JSON value (booleans do not occur in this data model). -/
inductive Json where
  | null
  | num (n : Int)
  | str (s : String)
  | arr (xs : List Json)
  | obj (fields : List (String × Json))

/-- Field lookup in a JSON object representation: first binding wins, as in
serde's struct deserializer. -/
def lookupField : List (String × Json) → String → Option Json
  | [], _ => none
  | (k, v) :: rest, name => if k = name then some v else lookupField rest name

/-- Field access on a JSON value. -/
def Json.getField : Json → String → Option Json
  | Json.obj fields, name => lookupField fields name
  | _, _ => none

/-- serde encoding of `std::time::SystemTime`. -/
def encodeSystemTime (t : SystemTime) : Json :=
  Json.obj [("secs_since_epoch", Json.num t.secs),
            ("nanos_since_epoch", Json.num t.nanos)]

/-- serde encoding of `Option<T>`: `None ↦ null`, `Some x ↦ encode x`. -/
def encodeOption (f : α → Json) : Option α → Json
  | none => Json.null
  | some a => f a

/-- serde (externally tagged) encoding of `JobState`. -/
def encodeJobState : JobState → Json
  | JobState.Queued => Json.str "Queued"
  | JobState.Running => Json.str "Running"
  | JobState.Terminated c => Json.obj [("Terminated", Json.num c)]
  | JobState.Killed s => Json.obj [("Killed", Json.num s)]
  | JobState.Failed m => Json.obj [("Failed", Json.str m)]

/-- serde encoding of `QueueState` (unit-only variants become strings). -/
def encodeQueueState : QueueState → Json
  | QueueState.Running => Json.str "Running"
  | QueueState.Stopping => Json.str "Stopping"
  | QueueState.Stopped => Json.str "Stopped"

/-- serde encoding of `Job`, field by field in declaration order. -/
def encodeJob (j : Job) : Json :=
  Json.obj
    [("id", Json.num j.id),
     ("cmdline", Json.str j.cmdline),
     ("scheduled", encodeSystemTime j.scheduled),
     ("started", encodeOption encodeSystemTime j.started),
     ("finished", encodeOption encodeSystemTime j.finished),
     ("stderr", Json.str j.stderr),
     ("stdout", Json.str j.stdout),
     ("state", encodeJobState j.state),
     ("pid", encodeOption (fun p : Nat => Json.num p) j.pid)]

/-- serde encoding of `JobQueue` — the document `State::save` writes. -/
def encodeJobQueue (q : JobQueue) : Json :=
  Json.obj
    [("last_id", Json.num q.last_id),
     ("state", encodeQueueState q.state),
     ("queue", Json.arr (q.queue.map encodeJob)),
     ("finished", Json.arr (q.finished.map encodeJob))]

/-- Decode a JSON number as an unsigned integer (`u64`/`u32`). -/
def decodeNat : Json → Option Nat
  | Json.num n => if n < 0 then none else some n.toNat
  | _ => none

/-- Decode a JSON number as a signed integer (`i32`). -/
def decodeInt : Json → Option Int
  | Json.num n => some n
  | _ => none

/-- Decode a JSON string. -/
def decodeStr : Json → Option String
  | Json.str s => some s
  | _ => none

/-- Decode `Option<T>`: `null ↦ None`, anything else must decode as `T`. -/
def decodeOption (f : Json → Option α) : Json → Option (Option α)
  | Json.null => some none
  | j => (f j).map some

/-- Decode a list of JSON values elementwise, failing if any element fails
(what serde's sequence deserializer does). -/
def decodeList (f : Json → Option α) : List Json → Option (List α)
  | [] => some []
  | x :: xs =>
    match f x, decodeList f xs with
    | some a, some as => some (a :: as)
    | _, _ => none

/-- Decode a JSON array elementwise. -/
def decodeArr (f : Json → Option α) : Json → Option (List α)
  | Json.arr xs => decodeList f xs
  | _ => none

/-- Look up a field of a JSON object and decode it; the serde struct
deserializer fails when a field is missing or malformed. -/
def bindField (j : Json) (name : String) (f : Json → Option α) : Option α :=
  match j.getField name with
  | some v => f v
  | none => none

/-- Decode `std::time::SystemTime`. -/
def decodeSystemTime (j : Json) : Option SystemTime :=
  match bindField j "secs_since_epoch" decodeNat,
        bindField j "nanos_since_epoch" decodeNat with
  | some s, some n => some { secs := s, nanos := n }
  | _, _ => none

/-- Decode the externally tagged `JobState`. -/
def decodeJobState : Json → Option JobState
  | Json.str "Queued" => some JobState.Queued
  | Json.str "Running" => some JobState.Running
  | Json.obj [("Terminated", Json.num c)] => some (JobState.Terminated c)
  | Json.obj [("Killed", Json.num s)] => some (JobState.Killed s)
  | Json.obj [("Failed", Json.str m)] => some (JobState.Failed m)
  | _ => none

/-- Decode `QueueState`. -/
def decodeQueueState : Json → Option QueueState
  | Json.str "Running" => some QueueState.Running
  | Json.str "Stopping" => some QueueState.Stopping
  | Json.str "Stopped" => some QueueState.Stopped
  | _ => none

/-- Decode a `Job` object. -/
def decodeJob (j : Json) : Option Job :=
  match bindField j "id" decodeNat,
        bindField j "cmdline" decodeStr,
        bindField j "scheduled" decodeSystemTime,
        bindField j "started" (decodeOption decodeSystemTime),
        bindField j "finished" (decodeOption decodeSystemTime),
        bindField j "stderr" decodeStr,
        bindField j "stdout" decodeStr,
        bindField j "state" decodeJobState,
        bindField j "pid" (decodeOption decodeNat) with
  | some id, some cmdline, some scheduled, some started, some fin,
    some stderr, some stdout, some state, some pid =>
    some { id := id, cmdline := cmdline, scheduled := scheduled,
           started := started, finished := fin, stderr := stderr,
           stdout := stdout, state := state, pid := pid }
  | _, _, _, _, _, _, _, _, _ => none

/-- Decode a `JobQueue` document. -/
def decodeJobQueue (j : Json) : Option JobQueue :=
  match bindField j "last_id" decodeNat,
        bindField j "state" decodeQueueState,
        bindField j "queue" (decodeArr decodeJob),
        bindField j "finished" (decodeArr decodeJob) with
  | some last_id, some state, some queue, some fin =>
    some { last_id := last_id, state := state, queue := queue,
           finished := fin }
  | _, _, _, _ => none

/-- `DEFAULT_STATE_LAST_ID` (src/state.rs line 10). -/
def DEFAULT_STATE_LAST_ID : Nat := 0

/-- `State::save` (src/state.rs line 50): the document written to the state
file. -/
def State.save (q : JobQueue) : Json := encodeJobQueue q

/-- `State::load_queue` (src/state.rs line 38): parse the state file, fall
back to a fresh queue when parsing fails. -/
def State.load_queue (j : Json) : JobQueue :=
  match decodeJobQueue j with
  | some q => q
  | none => JobQueue.new DEFAULT_STATE_LAST_ID

/-! ## Reachability

A step is one successfully returning call of a `JobQueue` operation: calls
that panic abort the daemon and produce no successor state, so they are not
steps. -/

/-- One mutating operation of the queue, with arbitrary arguments. -/
inductive Step : JobQueue → JobQueue → Prop where
  | submit (q : JobQueue) (cmdline : String) (now : SystemTime) :
    Step q (q.submit cmdline now).1
  | schedule (q : JobQueue) (now : SystemTime) :
    Step q (q.schedule now).1
  | assign_pid (q : JobQueue) (jobid pid : Nat) :
    Step q (q.assign_pid jobid pid)
  | finish (q : JobQueue) (new_state : JobState) (stdout stderr : String)
      (now : SystemTime) (q' : JobQueue) (r : Option Job) :
    q.finish new_state stdout stderr now = PanicOr.ok (q', r) → Step q q'
  | remove (q : JobQueue) (id : Nat) :
    Step q (q.remove id).1
  | set_state (q : JobQueue) (s : QueueState) :
    Step q (q.set_state s)
  | reset_first_job (q : JobQueue) (new_state : JobState) (now : SystemTime)
      (q' : JobQueue) :
    q.reset_first_job new_state now = PanicOr.ok q' → Step q q'

/-- Finitely many steps. -/
inductive Steps : JobQueue → JobQueue → Prop where
  | refl (q : JobQueue) : Steps q q
  | tail {q q' q'' : JobQueue} : Steps q q' → Step q' q'' → Steps q q''

/-- A queue reachable from a fresh queue by the operations above. -/
def Reachable (q : JobQueue) : Prop :=
  ∃ n : Nat, Steps (JobQueue.new n) q

/-! ## The queue-shape invariants -/

/-- No job strictly after the head of the queue is `Running`. -/
def TailNotRunning (q : JobQueue) : Prop :=
  ∀ j ∈ q.queue.drop 1, j.state ≠ JobState.Running

/-- The claim-level invariant: at most one queued job is `Running` and any
`Running` job sits at index 0. -/
def RunningAtMostOneAtHead (q : JobQueue) : Prop :=
  (q.queue.filter (fun j => decide (j.state = JobState.Running))).length ≤ 1 ∧
  ∀ i (h : i < q.queue.length),
    (q.queue.get ⟨i, h⟩).state = JobState.Running → i = 0

/-- Ids of queued jobs are strictly increasing along the queue and bounded by
`last_id`; every job of the queue is `Queued` or `Running`. -/
def QueueWellFormed (q : JobQueue) : Prop :=
  (q.queue.map Job.id).Pairwise (· < ·) ∧
  (∀ j ∈ q.queue, j.id ≤ q.last_id) ∧
  (∀ j ∈ q.queue, j.state = JobState.Queued ∨ j.state = JobState.Running)

/-! ## Inversion lemmas for the operations -/

/-- The job `finish` produces from the head `j`. -/
def finishedJob (j : Job) (new_state : JobState) (stdout stderr : String)
    (now : SystemTime) : Job :=
  { j with
    finished := some now, state := new_state,
    stdout := stdout, stderr := stderr }

/-- The queue `finish` produces on success from a head `j` and tail `rest`. -/
def finishedQueue (q : JobQueue) (j : Job) (rest : List Job)
    (new_state : JobState) (stdout stderr : String) (now : SystemTime) :
    JobQueue :=
  { q with
    state := if q.state = QueueState.Stopping then QueueState.Stopped
             else q.state,
    queue := rest,
    finished := q.finished ++ [finishedJob j new_state stdout stderr now] }

/-! ## Concrete fixtures used by witnesses and counterexamples -/

/-- A fresh queue after one `submit("a")` at time 0. -/
def qSub : JobQueue := ((JobQueue.new 0).submit "a" ⟨0, 0⟩).1

/-- The job created by that `submit`. -/
def jSub : Job :=
  { id := 1, cmdline := "a", scheduled := ⟨0, 0⟩, started := none,
    finished := none, stderr := "", stdout := "", state := JobState.Queued,
    pid := none }

/-- `qSub` after one `schedule` at time 0: head job is `Running`, no pid. -/
def qRun : JobQueue := (qSub.schedule ⟨0, 0⟩).1

/-- The head job of `qRun`. -/
def jRun : Job :=
  { id := 1, cmdline := "a", scheduled := ⟨0, 0⟩, started := some ⟨0, 0⟩,
    finished := none, stderr := "", stdout := "", state := JobState.Running,
    pid := none }

/-- A finished job with id 1. -/
def jFin : Job :=
  { id := 1, cmdline := "f", scheduled := ⟨0, 0⟩, started := some ⟨0, 0⟩,
    finished := some ⟨1, 0⟩, stderr := "", stdout := "",
    state := JobState.Terminated 0, pid := some 7 }

/-- A running job with id 2 and a recorded pid. -/
def jRun2 : Job :=
  { id := 2, cmdline := "r", scheduled := ⟨0, 0⟩, started := some ⟨2, 0⟩,
    finished := none, stderr := "", stdout := "", state := JobState.Running,
    pid := some 10 }

/-- A queued job with id 3. -/
def jQd : Job :=
  { id := 3, cmdline := "q", scheduled := ⟨0, 0⟩, started := none,
    finished := none, stderr := "", stdout := "", state := JobState.Queued,
    pid := none }

/-- A queue with one finished job, one running job and one queued job. -/
def qMix : JobQueue :=
  { last_id := 3, state := QueueState.Running, queue := [jRun2, jQd],
    finished := [jFin] }


/-- The head job after `reset_first_job(Queued)`. -/
def clearedJob (j : Job) : Job :=
  { j with
    started := none, state := JobState.Queued,
    pid := none, stderr := "", stdout := "" }

/-- The job `schedule` promotes the head `j` to. -/
def scheduledJob (j : Job) (now : SystemTime) : Job :=
  { j with started := some now, state := JobState.Running }

/-- The inductive invariant carried through all operations. -/
def QueueInv (q : JobQueue) : Prop := TailNotRunning q ∧ QueueWellFormed q


theorem finish_ok_inv {q q' : JobQueue} {ns : JobState} {out err : String}
    {t : SystemTime} {r : Option Job}
    (h : q.finish ns out err t = PanicOr.ok (q', r)) :
    (q.queue = [] ∧ q' = q ∧ r = none) ∨
    (∃ j rest, q.queue = j :: rest ∧ j.state = JobState.Running ∧
      q' = finishedQueue q j rest ns out err t ∧
      r = some (finishedJob j ns out err t)) := by
  rcases hq : q.queue with _ | ⟨j, rest⟩
  · left
    simp [JobQueue.finish, hq] at h
    exact ⟨rfl, h.1.symm, h.2.symm⟩
  · right
    by_cases hs : j.state = JobState.Running
    · simp [JobQueue.finish, hq, hs] at h
      refine ⟨j, rest, rfl, hs, ?_, ?_⟩
      · simp only [finishedQueue, finishedJob]
        exact h.1.symm
      · simp only [finishedJob]
        exact h.2.symm
    · simp [JobQueue.finish, hq, hs] at h


theorem reset_ok_inv {q q' : JobQueue} {ns : JobState} {t : SystemTime}
    (h : q.reset_first_job ns t = PanicOr.ok q') :
    (q' = q) ∨
    (∃ j rest, q.queue = j :: rest ∧ j.state ≠ JobState.Queued ∧
      ns = JobState.Queued ∧
      q' = { q with queue := clearedJob j :: rest }) ∨
    (∃ s r, ns = JobState.Failed s ∧
      q.finish (JobState.Failed s) "" "" t = PanicOr.ok (q', r)) := by
  rcases hq : q.queue with _ | ⟨j, rest⟩
  · left
    simp [JobQueue.reset_first_job, hq] at h
    exact h.symm
  · by_cases hs : j.state = JobState.Queued
    · left
      simp [JobQueue.reset_first_job, hq, hs] at h
      exact h.symm
    · cases ns with
      | Running => simp [JobQueue.reset_first_job, hq, hs] at h
      | Killed s => simp [JobQueue.reset_first_job, hq, hs] at h
      | Terminated c => simp [JobQueue.reset_first_job, hq, hs] at h
      | Queued =>
        right; left
        simp [JobQueue.reset_first_job, hq, hs] at h
        refine ⟨j, rest, rfl, hs, rfl, ?_⟩
        simp only [clearedJob]
        exact h.symm
      | Failed s =>
        right; right
        refine ⟨s, ?_⟩
        simp only [JobQueue.reset_first_job, hq, if_neg hs] at h
        rcases hf : q.finish (JobState.Failed s) "" "" t with _ | ⟨q'', r⟩
        · rw [hf] at h; cases h
        · rw [hf] at h
          cases h
          exact ⟨r, rfl, rfl⟩

theorem removeFirstById_sublist {l l' : List Job} {id : Nat} {x : Job}
    (h : removeFirstById l id = some (x, l')) : l'.Sublist l := by
  induction l generalizing l' with
  | nil => simp [removeFirstById] at h
  | cons j rest ih =>
    by_cases hid : j.id = id
    · simp [removeFirstById, hid] at h
      rw [← h.2]
      exact (List.sublist_cons_self j rest)
    · simp only [removeFirstById, if_neg hid] at h
      rcases hr : removeFirstById rest id with _ | ⟨y, rest'⟩
      · rw [hr] at h; cases h
      · rw [hr] at h
        cases h
        exact List.Sublist.cons₂ j (ih hr)

theorem removeFirstById_found {l l' : List Job} {id : Nat} {x : Job}
    (h : removeFirstById l id = some (x, l')) : x ∈ l ∧ x.id = id := by
  induction l generalizing l' with
  | nil => simp [removeFirstById] at h
  | cons j rest ih =>
    by_cases hid : j.id = id
    · simp [removeFirstById, hid] at h
      rw [← h.1]
      exact ⟨List.mem_cons_self j rest, hid⟩
    · simp only [removeFirstById, if_neg hid] at h
      rcases hr : removeFirstById rest id with _ | ⟨y, rest'⟩
      · rw [hr] at h; cases h
      · rw [hr] at h
        cases h
        have := ih hr
        exact ⟨List.mem_cons_of_mem j this.1, this.2⟩

theorem removeFirstById_none {l : List Job} {id : Nat}
    (h : removeFirstById l id = none) : ∀ j ∈ l, j.id ≠ id := by
  induction l with
  | nil => simp
  | cons j rest ih =>
    by_cases hid : j.id = id
    · simp [removeFirstById, hid] at h
    · simp only [removeFirstById, if_neg hid] at h
      rcases hr : removeFirstById rest id with _ | ⟨y, rest'⟩
      · intro x hx
        rcases List.mem_cons.1 hx with rfl | hx'
        · exact hid
        · exact ih hr x hx'
      · rw [hr] at h; cases h

theorem removeQueuedById_sublist {l l' : List Job} {id : Nat} {x : Job}
    (h : removeQueuedById l id = Except.ok (x, l')) : l'.Sublist l := by
  induction l generalizing l' with
  | nil => simp [removeQueuedById] at h
  | cons j rest ih =>
    by_cases hid : j.id = id
    · by_cases hs : j.state = JobState.Running
      · simp [removeQueuedById, hid, hs] at h
      · simp [removeQueuedById, hid, hs] at h
        rw [← h.2]
        exact (List.sublist_cons_self j rest)
    · simp only [removeQueuedById, if_neg hid] at h
      rcases hr : removeQueuedById rest id with e | ⟨y, rest'⟩
      · rw [hr] at h; cases h
      · rw [hr] at h
        cases h
        exact List.Sublist.cons₂ j (ih hr)

theorem removeQueuedById_cases {l l' : List Job} {id : Nat} {x : Job}
    (h : removeQueuedById l id = Except.ok (x, l')) :
    (l = x :: l' ∧ x.id = id ∧ x.state ≠ JobState.Running) ∨
    (∃ j rest rest', l = j :: rest ∧ l' = j :: rest' ∧ j.id ≠ id ∧
      removeQueuedById rest id = Except.ok (x, rest')) := by
  cases l with
  | nil => simp [removeQueuedById] at h
  | cons j rest =>
    by_cases hid : j.id = id
    · by_cases hs : j.state = JobState.Running
      · simp [removeQueuedById, hid, hs] at h
      · left
        simp [removeQueuedById, hid, hs] at h
        obtain ⟨h1, h2⟩ := h
        subst h1
        subst h2
        exact ⟨rfl, hid, hs⟩
    · right
      simp only [removeQueuedById, if_neg hid] at h
      rcases hr : removeQueuedById rest id with e | ⟨y, rest'⟩
      · rw [hr] at h; cases h
      · rw [hr] at h
        cases h
        exact ⟨j, rest, rest', rfl, rfl, hid, hr⟩

theorem removeQueuedById_not_found {l : List Job} {id : Nat}
    (h : ∀ j ∈ l, j.id ≠ id) :
    removeQueuedById l id = Except.error FailReason.NoSuchJob := by
  induction l with
  | nil => simp [removeQueuedById]
  | cons j rest ih =>
    have hj : ¬ j.id = id := h j (List.mem_cons_self j rest)
    simp only [removeQueuedById, if_neg hj]
    rw [ih (fun x hx => h x (List.mem_cons_of_mem j hx))]

theorem removeQueuedById_first {l1 l2 : List Job} {id : Nat} {x : Job}
    (hskip : ∀ y ∈ l1, y.id ≠ id) (hx : x.id = id) :
    removeQueuedById (l1 ++ x :: l2) id =
      (if x.state = JobState.Running then Except.error FailReason.WrongJobState
       else Except.ok (x, l1 ++ l2)) := by
  induction l1 with
  | nil =>
    simp only [List.nil_append, removeQueuedById, if_pos hx]
  | cons y l1' ih =>
    have hy : ¬ y.id = id := hskip y (List.mem_cons_self y l1')
    simp only [List.cons_append, removeQueuedById, if_neg hy, List.append_eq]
    rw [ih (fun z hz => hskip z (List.mem_cons_of_mem y hz))]
    by_cases hs : x.state = JobState.Running
    · simp [hs]
    · simp [hs]

theorem removeFirstById_not_found {l : List Job} {id : Nat}
    (h : ∀ j ∈ l, j.id ≠ id) : removeFirstById l id = none := by
  induction l with
  | nil => simp [removeFirstById]
  | cons j rest ih =>
    have hj : ¬ j.id = id := h j (List.mem_cons_self j rest)
    simp only [removeFirstById, if_neg hj]
    rw [ih (fun x hx => h x (List.mem_cons_of_mem j hx))]

theorem removeFirstById_first {l1 l2 : List Job} {id : Nat} {x : Job}
    (hskip : ∀ y ∈ l1, y.id ≠ id) (hx : x.id = id) :
    removeFirstById (l1 ++ x :: l2) id = some (x, l1 ++ l2) := by
  induction l1 with
  | nil => simp only [List.nil_append, removeFirstById, if_pos hx]
  | cons y l1' ih =>
    have hy : ¬ y.id = id := hskip y (List.mem_cons_self y l1')
    simp only [List.cons_append, removeFirstById, if_neg hy, List.append_eq]
    rw [ih (fun z hz => hskip z (List.mem_cons_of_mem y hz))]

theorem assignPidList_map_state (l : List Job) (a b : Nat) :
    (assignPidList l a b).map Job.state = l.map Job.state := by
  induction l with
  | nil => simp [assignPidList]
  | cons j rest ih =>
    by_cases hc : j.state = JobState.Running ∧ j.id = a
    · simp [assignPidList, hc]
    · simp [assignPidList, hc, ih]

theorem assignPidList_map_id (l : List Job) (a b : Nat) :
    (assignPidList l a b).map Job.id = l.map Job.id := by
  induction l with
  | nil => simp [assignPidList]
  | cons j rest ih =>
    by_cases hc : j.state = JobState.Running ∧ j.id = a
    · simp [assignPidList, hc]
    · simp [assignPidList, hc, ih]

/-! ## Invariant preservation -/


theorem inv_new (n : Nat) : QueueInv (JobQueue.new n) := by
  refine ⟨?_, ?_, ?_, ?_⟩ <;> simp [TailNotRunning, QueueWellFormed, JobQueue.new]

/-- `QueueInv` only depends on the `queue` and `last_id` fields. -/
theorem inv_congr {q q' : JobQueue} (hq : q'.queue = q.queue)
    (hl : q'.last_id = q.last_id) (h : QueueInv q) : QueueInv q' := by
  obtain ⟨htnr, hpw, hle, hst⟩ := h
  refine ⟨?_, ?_, ?_, ?_⟩
  · intro j hj
    exact htnr j (by rw [← hq]; exact hj)
  · rw [hq]; exact hpw
  · intro j hj
    rw [hl]
    exact hle j (by rw [← hq]; exact hj)
  · intro j hj
    exact hst j (by rw [← hq]; exact hj)

theorem tnr_of_map_eq {l l' : List Job}
    (hmap : l'.map Job.state = l.map Job.state)
    (h : ∀ j ∈ l.drop 1, j.state ≠ JobState.Running) :
    ∀ j ∈ l'.drop 1, j.state ≠ JobState.Running := by
  intro j hj hrun
  have hmem : j.state ∈ (l'.map Job.state).drop 1 := by
    rw [← List.map_drop]
    exact List.mem_map_of_mem Job.state hj
  rw [hmap, ← List.map_drop] at hmem
  obtain ⟨y, hy, hys⟩ := List.mem_map.1 hmem
  exact h y hy (by rw [hys, hrun])

theorem states_of_mem_imp {l l' : List Job}
    (hsub : ∀ {j : Job}, j ∈ l' → j.state ∈ l.map Job.state)
    (h : ∀ j ∈ l, j.state = JobState.Queued ∨ j.state = JobState.Running) :
    ∀ j ∈ l', j.state = JobState.Queued ∨ j.state = JobState.Running := by
  intro j hj
  obtain ⟨y, hy, hys⟩ := List.mem_map.1 (hsub hj)
  rw [← hys]
  exact h y hy

theorem inv_submit {q : JobQueue} (h : QueueInv q) (c : String) (t : SystemTime) :
    QueueInv (q.submit c t).1 := by
  obtain ⟨htnr, hpw, hle, hst⟩ := h
  refine ⟨?_, ?_, ?_, ?_⟩
  · intro j hj
    simp only [JobQueue.submit] at hj
    rcases hq : q.queue with _ | ⟨a, l⟩
    · rw [hq] at hj
      simp at hj
    · rw [hq] at hj
      simp only [List.cons_append, List.drop_succ_cons, List.drop_zero] at hj
      rcases List.mem_append.1 hj with h1 | h2
      · refine htnr j ?_
        rw [hq]
        simpa using h1
      · simp only [List.mem_singleton] at h2
        subst h2
        simp
  · simp only [JobQueue.submit, List.map_append, List.map_cons, List.map_nil]
    rw [List.pairwise_append]
    refine ⟨hpw, by simp, ?_⟩
    intro x hx y hy
    simp only [List.mem_singleton] at hy
    subst hy
    obtain ⟨j, hj, rfl⟩ := List.mem_map.1 hx
    exact Nat.lt_succ_of_le (hle j hj)
  · intro j hj
    simp only [JobQueue.submit] at hj ⊢
    rcases List.mem_append.1 hj with h1 | h2
    · exact le_trans (hle j h1) (Nat.le_succ _)
    · simp only [List.mem_singleton] at h2
      subst h2
      simp
  · intro j hj
    simp only [JobQueue.submit] at hj
    rcases List.mem_append.1 hj with h1 | h2
    · exact hst j h1
    · simp only [List.mem_singleton] at h2
      subst h2
      left
      rfl

theorem schedule_not_running {q : JobQueue} {t : SystemTime}
    (hs : ¬ q.state = QueueState.Running) : q.schedule t = (q, none) := by
  simp [JobQueue.schedule, hs]

theorem schedule_empty {q : JobQueue} {t : SystemTime}
    (hq : q.queue = []) : q.schedule t = (q, none) := by
  by_cases hs : q.state = QueueState.Running
  · simp [JobQueue.schedule, hs, hq]
  · simp [JobQueue.schedule, hs]


theorem schedule_cons {q : JobQueue} {t : SystemTime} {j : Job}
    {rest : List Job} (hs : q.state = QueueState.Running)
    (hq : q.queue = j :: rest) :
    q.schedule t = ({ q with queue := scheduledJob j t :: rest },
                    some (scheduledJob j t)) := by
  simp [JobQueue.schedule, hs, hq, scheduledJob]

theorem inv_schedule {q : JobQueue} (h : QueueInv q) (t : SystemTime) :
    QueueInv (q.schedule t).1 := by
  by_cases hs : q.state = QueueState.Running
  · rcases hq : q.queue with _ | ⟨j, rest⟩
    · rw [schedule_empty hq]
      exact h
    · rw [schedule_cons hs hq]
      obtain ⟨htnr, hpw, hle, hst⟩ := h
      refine ⟨?_, ?_, ?_, ?_⟩
      · intro x hx
        simp only [List.drop_succ_cons, List.drop_zero] at hx
        refine htnr x ?_
        rw [hq]
        simpa using hx
      · simp only [List.map_cons]
        have hid : (scheduledJob j t).id = j.id := rfl
        rw [hid]
        have := hpw
        rw [hq] at this
        simpa using this
      · intro x hx
        simp only [List.mem_cons] at hx
        rcases hx with rfl | hx'
        · have : j.id ≤ q.last_id := hle j (by rw [hq]; exact List.mem_cons_self _ _)
          exact this
        · exact hle x (by rw [hq]; exact List.mem_cons_of_mem _ hx')
      · intro x hx
        simp only [List.mem_cons] at hx
        rcases hx with rfl | hx'
        · right
          rfl
        · exact hst x (by rw [hq]; exact List.mem_cons_of_mem _ hx')
  · rw [schedule_not_running hs]
    exact h

theorem inv_finish_ok {q q' : JobQueue} {ns : JobState} {out err : String}
    {t : SystemTime} {r : Option Job} (h : QueueInv q)
    (hf : q.finish ns out err t = PanicOr.ok (q', r)) : QueueInv q' := by
  rcases finish_ok_inv hf with ⟨_, rfl, _⟩ | ⟨j, rest, hq, _, rfl, _⟩
  · exact h
  · obtain ⟨htnr, hpw, hle, hst⟩ := h
    refine ⟨?_, ?_, ?_, ?_⟩
    · intro x hx
      simp only [finishedQueue] at hx
      refine htnr x ?_
      rw [hq]
      simp only [List.drop_succ_cons, List.drop_zero]
      exact List.mem_of_mem_drop hx
    · simp only [finishedQueue]
      have := hpw
      rw [hq, List.map_cons] at this
      exact this.of_cons
    · intro x hx
      simp only [finishedQueue] at hx ⊢
      exact hle x (by rw [hq]; exact List.mem_cons_of_mem _ hx)
    · intro x hx
      simp only [finishedQueue] at hx
      exact hst x (by rw [hq]; exact List.mem_cons_of_mem _ hx)

theorem inv_assign_pid {q : JobQueue} (h : QueueInv q) (a b : Nat) :
    QueueInv (q.assign_pid a b) := by
  obtain ⟨htnr, hpw, hle, hst⟩ := h
  refine ⟨?_, ?_, ?_, ?_⟩
  · intro j hj
    simp only [JobQueue.assign_pid] at hj
    exact tnr_of_map_eq (assignPidList_map_state q.queue a b) htnr j hj
  · simp only [JobQueue.assign_pid]
    rw [assignPidList_map_id]
    exact hpw
  · intro j hj
    simp only [JobQueue.assign_pid] at hj ⊢
    have hmem : j.id ∈ (assignPidList q.queue a b).map Job.id :=
      List.mem_map_of_mem Job.id hj
    rw [assignPidList_map_id] at hmem
    obtain ⟨y, hy, hys⟩ := List.mem_map.1 hmem
    rw [← hys]
    exact hle y hy
  · intro j hj
    simp only [JobQueue.assign_pid] at hj
    refine states_of_mem_imp (l := q.queue) ?_ hst j hj
    intro x hx
    rw [← assignPidList_map_state q.queue a b]
    exact List.mem_map_of_mem Job.state hx

theorem remove_fst_cases (q : JobQueue) (id : Nat) :
    ((q.remove id).1.queue = q.queue ∧ (q.remove id).1.last_id = q.last_id) ∨
    (∃ x qu', removeQueuedById q.queue id = Except.ok (x, qu') ∧
      (q.remove id).1 = { q with queue := qu' }) := by
  unfold JobQueue.remove
  rcases h1 : removeFirstById q.finished id with _ | ⟨x, fin'⟩
  · rcases h2 : removeQueuedById q.queue id with e | ⟨y, qu'⟩
    · left
      simp
    · right
      exact ⟨y, qu', rfl, by simp⟩
  · left
    simp

theorem inv_remove {q : JobQueue} (h : QueueInv q) (id : Nat) :
    QueueInv (q.remove id).1 := by
  rcases remove_fst_cases q id with ⟨hq, hl⟩ | ⟨x, qu', hrm, heq⟩
  · exact inv_congr hq hl h
  · rw [heq]
    obtain ⟨htnr, hpw, hle, hst⟩ := h
    have hsub := removeQueuedById_sublist hrm
    refine ⟨?_, ?_, ?_, ?_⟩
    · intro j hj
      rcases removeQueuedById_cases hrm with ⟨hcons, _, _⟩ | ⟨a, rest, rest', hcons, hq', _, hrec⟩
      · refine htnr j ?_
        rw [hcons]
        simp only [List.drop_succ_cons, List.drop_zero]
        exact List.mem_of_mem_drop hj
      · rw [hq'] at hj
        simp only [List.drop_succ_cons, List.drop_zero] at hj
        refine htnr j ?_
        rw [hcons]
        simp only [List.drop_succ_cons, List.drop_zero]
        exact (removeQueuedById_sublist hrec).subset hj
    · exact hpw.sublist (hsub.map Job.id)
    · intro j hj
      exact hle j (hsub.subset hj)
    · intro j hj
      exact hst j (hsub.subset hj)

theorem inv_set_state {q : JobQueue} (h : QueueInv q) (s : QueueState) :
    QueueInv (q.set_state s) :=
  inv_congr rfl rfl h

theorem inv_reset_ok {q q' : JobQueue} {ns : JobState} {t : SystemTime}
    (h : QueueInv q) (hr : q.reset_first_job ns t = PanicOr.ok q') :
    QueueInv q' := by
  rcases reset_ok_inv hr with rfl | ⟨j, rest, hq, _, _, rfl⟩ | ⟨s, r, _, hf⟩
  · exact h
  · obtain ⟨htnr, hpw, hle, hst⟩ := h
    refine ⟨?_, ?_, ?_, ?_⟩
    · intro x hx
      simp only [List.drop_succ_cons, List.drop_zero] at hx
      refine htnr x ?_
      rw [hq]
      simpa using hx
    · simp only [List.map_cons]
      have hid : (clearedJob j).id = j.id := rfl
      rw [hid]
      have := hpw
      rw [hq, List.map_cons] at this
      exact this
    · intro x hx
      simp only [List.mem_cons] at hx
      rcases hx with rfl | hx'
      · exact hle j (by rw [hq]; exact List.mem_cons_self _ _)
      · exact hle x (by rw [hq]; exact List.mem_cons_of_mem _ hx')
    · intro x hx
      simp only [List.mem_cons] at hx
      rcases hx with rfl | hx'
      · left
        rfl
      · exact hst x (by rw [hq]; exact List.mem_cons_of_mem _ hx')
  · exact inv_finish_ok h hf

theorem step_inv {q q' : JobQueue} (h : QueueInv q) (s : Step q q') :
    QueueInv q' := by
  cases s with
  | submit c t => exact inv_submit h c t
  | schedule t => exact inv_schedule h t
  | assign_pid a b => exact inv_assign_pid h a b
  | finish ns out err t q2 r hf => exact inv_finish_ok h hf
  | remove id => exact inv_remove h id
  | set_state s => exact inv_set_state h s
  | reset_first_job ns t q2 hr => exact inv_reset_ok h hr

theorem steps_inv {q q' : JobQueue} (hs : Steps q q') (h : QueueInv q) :
    QueueInv q' := by
  induction hs with
  | refl => exact h
  | tail _ s ih => exact step_inv ih s

theorem reachable_inv {q : JobQueue} (h : Reachable q) : QueueInv q := by
  obtain ⟨n, hs⟩ := h
  exact steps_inv hs (inv_new n)

/-- The claim-level invariant is exactly `TailNotRunning`. -/
theorem runningAtMostOneAtHead_iff (q : JobQueue) :
    RunningAtMostOneAtHead q ↔ TailNotRunning q := by
  unfold RunningAtMostOneAtHead TailNotRunning
  constructor
  · rintro ⟨-, hidx⟩
    intro j hj hrun
    obtain ⟨k, hk, hkj⟩ := List.mem_iff_getElem.1 hj
    have hk' : 1 + k < q.queue.length := by
      have := hk
      rw [List.length_drop] at this
      omega
    have hdrop : (q.queue.drop 1)[k] = q.queue[1 + k] := List.getElem_drop _
    have h0 : 1 + k = 0 := by
      apply hidx (1 + k) hk'
      rw [List.get_eq_getElem, ← hdrop, hkj]
      exact hrun
    omega
  · intro h
    constructor
    · rcases hq : q.queue with _ | ⟨a, l⟩
      · simp
      · have hl : ∀ x ∈ l, ¬ (decide (x.state = JobState.Running)) = true := by
          intro x hx
          simp only [decide_eq_true_eq]
          exact h x (by rw [hq]; simpa using hx)
        have hfl : l.filter (fun j => decide (j.state = JobState.Running)) = [] :=
          List.filter_eq_nil_iff.2 hl
        rw [List.filter_cons]
        by_cases ha : a.state = JobState.Running
        · simp [ha, hfl]
        · simp [ha, hfl]
    · intro i hi hrun
      by_contra h0
      obtain ⟨k, rfl⟩ : ∃ k, i = 1 + k := ⟨i - 1, by omega⟩
      have hk2 : k < (q.queue.drop 1).length := by
        rw [List.length_drop]
        omega
      have hdrop : (q.queue.drop 1)[k] = q.queue[1 + k] := List.getElem_drop _
      refine h ((q.queue.drop 1)[k]) (List.getElem_mem hk2) ?_
      rw [hdrop]
      rw [List.get_eq_getElem] at hrun
      exact hrun

theorem step_last_id {q q' : JobQueue} (s : Step q q') :
    q.last_id ≤ q'.last_id := by
  cases s with
  | submit c t => exact Nat.le_succ _
  | schedule t =>
    by_cases hs : q.state = QueueState.Running
    · rcases hq : q.queue with _ | ⟨j, rest⟩
      · rw [schedule_empty hq]
      · rw [schedule_cons hs hq]
    · rw [schedule_not_running hs]
  | assign_pid a b => exact Nat.le_refl _
  | finish ns out err t q2 r hf =>
    rcases finish_ok_inv hf with ⟨_, rfl, _⟩ | ⟨j, rest, _, _, rfl, _⟩
    · exact Nat.le_refl _
    · simp [finishedQueue]
  | remove id =>
    rcases remove_fst_cases q id with ⟨_, hl⟩ | ⟨x, qu', _, heq⟩
    · rw [hl]
    · rw [heq]
  | set_state s => exact Nat.le_refl _
  | reset_first_job ns t q2 hr =>
    rcases reset_ok_inv hr with rfl | ⟨j, rest, _, _, _, rfl⟩ | ⟨s, r, _, hf⟩
    · exact Nat.le_refl _
    · exact Nat.le_refl _
    · rcases finish_ok_inv hf with ⟨_, rfl, _⟩ | ⟨j, rest, _, _, rfl, _⟩
      · exact Nat.le_refl _
      · simp [finishedQueue]

theorem steps_last_id {q q' : JobQueue} (hs : Steps q q') :
    q.last_id ≤ q'.last_id := by
  induction hs with
  | refl => exact Nat.le_refl _
  | tail _ s ih => exact le_trans ih (step_last_id s)

/-! ## Serialization round-trip lemmas -/

theorem decodeNat_encode (n : Nat) : decodeNat (Json.num n) = some n := by
  simp only [decodeNat]
  rw [if_neg (Int.not_lt.mpr (Int.natCast_nonneg n))]
  rw [Int.toNat_natCast]

theorem decodeSystemTime_encode (t : SystemTime) :
    decodeSystemTime (encodeSystemTime t) = some t := by
  simp [decodeSystemTime, encodeSystemTime, bindField, Json.getField,
        lookupField, decodeNat_encode]

theorem decodeOption_encode {α : Type} {f : α → Json} {g : Json → Option α}
    (h : ∀ a, g (f a) = some a) (hnn : ∀ a, f a ≠ Json.null) (x : Option α) :
    decodeOption g (encodeOption f x) = some x := by
  cases x with
  | none => rfl
  | some a =>
    have hga := h a
    rcases hf : f a with _ | n | s | xs | fl
    · exact absurd hf (hnn a)
    all_goals
      simp only [encodeOption, hf, decodeOption]
      rw [← hf, hga]
      rfl

theorem decodeJobState_encode (s : JobState) :
    decodeJobState (encodeJobState s) = some s := by
  cases s <;> rfl

theorem decodeQueueState_encode (s : QueueState) :
    decodeQueueState (encodeQueueState s) = some s := by
  cases s <;> rfl

theorem decodeList_encode {α : Type} {f : α → Json} {g : Json → Option α}
    (l : List α) (h : ∀ a ∈ l, g (f a) = some a) :
    decodeList g (l.map f) = some l := by
  induction l with
  | nil => rfl
  | cons a rest ih =>
    rw [List.map_cons, decodeList, h a (List.mem_cons_self a rest),
        ih (fun x hx => h x (List.mem_cons_of_mem a hx))]

theorem decodeJob_encode (j : Job) : decodeJob (encodeJob j) = some j := by
  obtain ⟨id, cmdline, scheduled, started, fin, stderr, stdout, state, pid⟩ := j
  have h1 : decodeOption decodeSystemTime
      (encodeOption encodeSystemTime started) = some started :=
    decodeOption_encode decodeSystemTime_encode
      (fun a => by cases a; intro h; cases h) started
  have h2 : decodeOption decodeSystemTime
      (encodeOption encodeSystemTime fin) = some fin :=
    decodeOption_encode decodeSystemTime_encode
      (fun a => by cases a; intro h; cases h) fin
  have h3 : decodeOption decodeNat
      (encodeOption (fun p : Nat => Json.num p) pid) = some pid :=
    decodeOption_encode (g := decodeNat) (fun a => decodeNat_encode a)
      (fun a => by intro h; cases h) pid
  simp [decodeJob, encodeJob, bindField, Json.getField, lookupField,
        decodeNat_encode, decodeStr, decodeSystemTime_encode,
        decodeJobState_encode, h1, h2, h3]

theorem decodeJobQueue_encode (q : JobQueue) :
    decodeJobQueue (encodeJobQueue q) = some q := by
  obtain ⟨last_id, state, queue, fin⟩ := q
  have hq : decodeList decodeJob (queue.map encodeJob) = some queue :=
    decodeList_encode queue (fun a _ => decodeJob_encode a)
  have hf : decodeList decodeJob (fin.map encodeJob) = some fin :=
    decodeList_encode fin (fun a _ => decodeJob_encode a)
  simp [decodeJobQueue, encodeJobQueue, bindField, Json.getField, lookupField,
        decodeNat_encode, decodeQueueState_encode, decodeArr, hq, hf]

/-! ## The claims -/

/-- C6: the JSON document `State::save` writes for any `JobQueue` parses back
(via `State::load_queue`) to the same `JobQueue`, with `last_id`, the queue
state, and all fields of the jobs in both sequences intact. -/
theorem claim_C6 (q : JobQueue) :
    decodeJobQueue (encodeJobQueue q) = some q ∧
    State.load_queue (State.save q) = q := by
  refine ⟨decodeJobQueue_encode q, ?_⟩
  unfold State.load_queue State.save
  rw [decodeJobQueue_encode]

/-- C1: every queue reachable from a fresh queue by the seven operations has
at most one `Running` job in its queue sequence, and if there is one it sits
at index 0; moreover each operation applied to a reachable queue yields a
queue that still satisfies this invariant. -/
theorem claim_C1 :
    (∀ q, Reachable q → RunningAtMostOneAtHead q) ∧
    (∀ q q', Reachable q → Step q q' → RunningAtMostOneAtHead q') := by
  constructor
  · intro q h
    exact (runningAtMostOneAtHead_iff q).2 (reachable_inv h).1
  · intro q q' h s
    have h' : Reachable q' := by
      obtain ⟨n, hs⟩ := h
      exact ⟨n, Steps.tail hs s⟩
    exact (runningAtMostOneAtHead_iff q').2 (reachable_inv h').1

theorem claim_C1_witness :
    RunningAtMostOneAtHead qSub ∧ RunningAtMostOneAtHead qRun := by
  have hreach : Reachable qSub :=
    ⟨0, Steps.tail (Steps.refl _) (Step.submit (JobQueue.new 0) "a" ⟨0, 0⟩)⟩
  exact ⟨claim_C1.1 qSub hreach,
         claim_C1.2 qSub qRun hreach (Step.schedule qSub ⟨0, 0⟩)⟩

/-- C5: `submit` assigns `last_id + 1`, appends a fresh `Queued` job with the
given command line and empty outputs at the back, and returns the new id;
ids returned by successive submits (with any operations in between) are
strictly increasing; and on every reachable queue the job ids are strictly
increasing along the queue sequence, so earlier submissions sit earlier. -/
theorem claim_C5 :
    (∀ (q : JobQueue) (c : String) (t : SystemTime),
      q.submit c t =
        ({ q with
           last_id := q.last_id + 1,
           queue := q.queue ++
             [{ id := q.last_id + 1, cmdline := c, scheduled := t,
                started := none, finished := none, stderr := "",
                stdout := "", state := JobState.Queued, pid := none }] },
         q.last_id + 1)) ∧
    (∀ (q : JobQueue) (c₁ c₂ : String) (t₁ t₂ : SystemTime) (q₂ : JobQueue),
      Steps (q.submit c₁ t₁).1 q₂ →
      (q.submit c₁ t₁).2 < (q₂.submit c₂ t₂).2) ∧
    (∀ q, Reachable q → (q.queue.map Job.id).Pairwise (· < ·)) := by
  refine ⟨?_, ?_, ?_⟩
  · intro q c t
    rfl
  · intro q c₁ c₂ t₁ t₂ q₂ hsteps
    have hle := steps_last_id hsteps
    simp only [JobQueue.submit] at hle ⊢
    omega
  · intro q h
    exact (reachable_inv h).2.1

theorem claim_C5_witness :
    (((JobQueue.new 0).submit "a" ⟨0, 0⟩).2 <
      ((((JobQueue.new 0).submit "a" ⟨0, 0⟩).1).submit "b" ⟨1, 0⟩).2) ∧
    (qSub.queue.map Job.id).Pairwise (· < ·) :=
  ⟨claim_C5.2.1 (JobQueue.new 0) "a" "b" ⟨0, 0⟩ ⟨1, 0⟩ _ (Steps.refl _),
   claim_C5.2.2 qSub
     ⟨0, Steps.tail (Steps.refl _) (Step.submit (JobQueue.new 0) "a" ⟨0, 0⟩)⟩⟩

/-- C2 (amended): `schedule` returns `Some` exactly when the queue state is
`Running` and a head job exists — regardless of that job's state; it then
sets the head to `Running` with `started = now` and returns the clone; it
returns `None` and leaves the queue unchanged only when the queue is empty
or the queue state is not `Running`. -/
theorem claim_C2 (q : JobQueue) (t : SystemTime) :
    (q.state = QueueState.Running → ∀ j rest, q.queue = j :: rest →
      q.schedule t = ({ q with queue := scheduledJob j t :: rest },
                      some (scheduledJob j t))) ∧
    (q.state = QueueState.Running → q.queue = [] →
      q.schedule t = (q, none)) ∧
    (q.state ≠ QueueState.Running → q.schedule t = (q, none)) := by
  refine ⟨?_, ?_, ?_⟩
  · intro hs j rest hq
    exact schedule_cons hs hq
  · intro hs hq
    exact schedule_empty hq
  · intro hs
    exact schedule_not_running hs

theorem claim_C2_counterexample :
    qRun.state = QueueState.Running ∧
    qRun.queue.map Job.state = [JobState.Running] ∧
    (qRun.schedule ⟨1, 0⟩).2.isSome = true ∧
    (qRun.schedule ⟨1, 0⟩).1 ≠ qRun := by
  refine ⟨rfl, rfl, rfl, ?_⟩
  decide

theorem claim_C2_witness :
    qSub.schedule ⟨0, 0⟩ =
      ({ qSub with queue := scheduledJob jSub ⟨0, 0⟩ :: [] },
       some (scheduledJob jSub ⟨0, 0⟩)) ∧
    (JobQueue.new 1).schedule ⟨0, 0⟩ = (JobQueue.new 1, none) ∧
    ((JobQueue.new 2).set_state QueueState.Stopped).schedule ⟨0, 0⟩ =
      ((JobQueue.new 2).set_state QueueState.Stopped, none) :=
  ⟨(claim_C2 qSub ⟨0, 0⟩).1 rfl jSub [] rfl,
   (claim_C2 (JobQueue.new 1) ⟨0, 0⟩).2.1 rfl rfl,
   (claim_C2 ((JobQueue.new 2).set_state QueueState.Stopped) ⟨0, 0⟩).2.2
     (by decide)⟩

/-- C3: on a non-empty queue whose head is `Running`, `finish` removes the
head, stamps `finished = now`, sets the new state and the given outputs,
appends the job to `finished`, returns it, and turns queue state `Stopping`
into `Stopped` (leaving any other queue state unchanged). -/
theorem claim_C3 (q : JobQueue) (ns : JobState) (out err : String)
    (t : SystemTime) (j : Job) (rest : List Job)
    (hq : q.queue = j :: rest) (hj : j.state = JobState.Running) :
    q.finish ns out err t =
      PanicOr.ok
        ({ q with
           state := if q.state = QueueState.Stopping then QueueState.Stopped
                    else q.state,
           queue := rest,
           finished := q.finished ++ [finishedJob j ns out err t] },
         some (finishedJob j ns out err t)) := by
  simp [JobQueue.finish, hq, hj, finishedJob]

theorem claim_C3_witness :
    qRun.finish (JobState.Terminated 0) "o" "e" ⟨2, 0⟩ =
      PanicOr.ok
        ({ qRun with
           state := if qRun.state = QueueState.Stopping then
                      QueueState.Stopped
                    else qRun.state,
           queue := ([] : List Job),
           finished := qRun.finished ++
             [finishedJob jRun (JobState.Terminated 0) "o" "e" ⟨2, 0⟩] },
         some (finishedJob jRun (JobState.Terminated 0) "o" "e" ⟨2, 0⟩)) :=
  claim_C3 qRun (JobState.Terminated 0) "o" "e" ⟨2, 0⟩ jRun [] rfl rfl

/-- C4: `remove(id)` searches `finished` first and removes and returns the
job found there; otherwise a queued job with that id is rejected with
`WrongJobState` when `Running` and removed and returned when `Queued`; when
the id occurs nowhere the result is `NoSuchJob`; and every error result
leaves the queue unchanged.  "The job with that id" is the first match in
scan order, as in the source. -/
theorem claim_C4 (q : JobQueue) (id : Nat) :
    (∀ l1 x l2, q.finished = l1 ++ x :: l2 → (∀ y ∈ l1, y.id ≠ id) →
      x.id = id →
      q.remove id = ({ q with finished := l1 ++ l2 }, Except.ok x)) ∧
    ((∀ y ∈ q.finished, y.id ≠ id) →
      ∀ l1 x l2, q.queue = l1 ++ x :: l2 → (∀ y ∈ l1, y.id ≠ id) →
        x.id = id →
        ((x.state = JobState.Running →
           q.remove id = (q, Except.error FailReason.WrongJobState)) ∧
         (x.state = JobState.Queued →
           q.remove id = ({ q with queue := l1 ++ l2 }, Except.ok x)))) ∧
    ((∀ y ∈ q.finished, y.id ≠ id) → (∀ y ∈ q.queue, y.id ≠ id) →
      q.remove id = (q, Except.error FailReason.NoSuchJob)) ∧
    (∀ e, (q.remove id).2 = Except.error e → (q.remove id).1 = q) := by
  refine ⟨?_, ?_, ?_, ?_⟩
  · intro l1 x l2 hfin hskip hx
    unfold JobQueue.remove
    rw [hfin, removeFirstById_first hskip hx]
  · intro hnf l1 x l2 hqu hskip hx
    have hrf : removeFirstById q.finished id = none :=
      removeFirstById_not_found hnf
    constructor
    · intro hrun
      unfold JobQueue.remove
      rw [hrf, hqu, removeQueuedById_first hskip hx, if_pos hrun]
    · intro hqd
      have hnr : ¬ x.state = JobState.Running := by
        rw [hqd]
        intro h
        cases h
      unfold JobQueue.remove
      rw [hrf, hqu, removeQueuedById_first hskip hx, if_neg hnr]
  · intro hnf hnq
    unfold JobQueue.remove
    rw [removeFirstById_not_found hnf, removeQueuedById_not_found hnq]
  · intro e
    unfold JobQueue.remove
    rcases h1 : removeFirstById q.finished id with _ | ⟨x, fin'⟩
    · rcases h2 : removeQueuedById q.queue id with e' | ⟨y, qu'⟩
      · intro _
        rfl
      · intro h
        simp at h
    · intro h
      simp at h

theorem claim_C4_witness :
    qMix.remove 1 = ({ qMix with finished := ([] : List Job) ++ [] },
                     Except.ok jFin) ∧
    qMix.remove 2 = (qMix, Except.error FailReason.WrongJobState) ∧
    qMix.remove 3 = ({ qMix with queue := [jRun2] ++ [] }, Except.ok jQd) ∧
    qMix.remove 99 = (qMix, Except.error FailReason.NoSuchJob) :=
  ⟨(claim_C4 qMix 1).1 [] jFin [] rfl (by simp) rfl,
   ((claim_C4 qMix 2).2.1 (by decide) [] jRun2 [jQd] rfl (by simp) rfl).1 rfl,
   ((claim_C4 qMix 3).2.1 (by decide) [jRun2] jQd [] rfl (by decide) rfl).2
     rfl,
   (claim_C4 qMix 99).2.2.1 (by decide) (by decide)⟩

/-- C7 (amended): at startup recovery on a loaded (reachable) queue with a
non-`Queued` head: queue state `Running` finishes the head as
`Failed(interruptedMsg)` (the source spells the message "... ask for
assistence") moving it to `finished`; `Stopping` resets the head to `Queued`
clearing `started`, `pid`, `stdout`, `stderr`; `Stopped` changes nothing. -/
theorem claim_C7 (q : JobQueue) (t : SystemTime) (j : Job) (rest : List Job)
    (hreach : Reachable q) (hq : q.queue = j :: rest)
    (hnq : j.state ≠ JobState.Queued) :
    (q.state = QueueState.Running →
      recover q t = PanicOr.ok
        { q with
          queue := rest,
          finished := q.finished ++
            [finishedJob j (JobState.Failed interruptedMsg) "" "" t] }) ∧
    (q.state = QueueState.Stopping →
      recover q t = PanicOr.ok { q with queue := clearedJob j :: rest }) ∧
    (q.state = QueueState.Stopped → recover q t = PanicOr.ok q) := by
  refine ⟨?_, ?_, ?_⟩
  · intro hs
    have hj : j.state = JobState.Running := by
      rcases (reachable_inv hreach).2.2.2 j
          (by rw [hq]; exact List.mem_cons_self _ _) with h | h
      · exact absurd h hnq
      · exact h
    simp [recover, hs, JobQueue.reset_first_job, hq, hnq, JobQueue.finish,
          hj, finishedJob]
  · intro hs
    simp [recover, hs, JobQueue.reset_first_job, hq, hnq, clearedJob]
  · intro hs
    simp [recover, hs]

theorem claim_C7_counterexample :
    qRun.state = QueueState.Running ∧
    qRun.queue.map Job.state = [JobState.Running] ∧
    recover qRun ⟨3, 0⟩ =
      PanicOr.ok
        { qRun with
          queue := ([] : List Job),
          finished :=
            [finishedJob jRun (JobState.Failed interruptedMsg) "" "" ⟨3, 0⟩] } ∧
    interruptedMsg ≠
      "Interrupted by system failure, please re-submit or ask for assistance"
    := by
  refine ⟨rfl, rfl, by decide, by decide⟩

theorem claim_C7_witness :
    recover qRun ⟨3, 0⟩ =
      PanicOr.ok
        { qRun with
          queue := ([] : List Job),
          finished := qRun.finished ++
            [finishedJob jRun (JobState.Failed interruptedMsg) "" "" ⟨3, 0⟩] } :=
  (claim_C7 qRun ⟨3, 0⟩ jRun []
    ⟨0, Steps.tail (Steps.tail (Steps.refl _)
          (Step.submit (JobQueue.new 0) "a" ⟨0, 0⟩))
        (Step.schedule qSub ⟨0, 0⟩)⟩
    rfl (by decide)).1 rfl

/-- C8: contrary to the spec and to the CLI documentation
(src/clicommands.rs lines 134-136, "'Stopped' cannot be set manually and
will yield errors"), the dispatcher accepts `SetQueueState(Stopped)`:
it sets the queue state to `Stopped` and answers 200 with
`QueueState(Stopped)`, never an `Error` response. -/
theorem claim_C8 (q : JobQueue) (t : SystemTime) (k : KillResult) :
    dispatch (Request.SetQueueState QueueState.Stopped) q t k =
      PanicOr.ok (q.set_state QueueState.Stopped, 200,
        Response.QueueState QueueState.Stopped) ∧
    (q.set_state QueueState.Stopped).state = QueueState.Stopped ∧
    ∀ m, Response.QueueState QueueState.Stopped ≠ Response.Error m := by
  refine ⟨rfl, ?_, ?_⟩
  · simp [JobQueue.set_state]
  · intro m h
    cases h

/-- C9 (amended): `finish` is a fatal assertion exactly on a non-empty queue
whose head is not `Running`; on an empty queue it returns `None` normally
(the queue unchanged) instead of panicking. -/
theorem claim_C9 (q : JobQueue) (ns : JobState) (out err : String)
    (t : SystemTime) :
    (q.queue = [] → q.finish ns out err t = PanicOr.ok (q, none)) ∧
    (∀ j rest, q.queue = j :: rest → j.state ≠ JobState.Running →
      q.finish ns out err t = PanicOr.panic) ∧
    (∀ j rest, q.queue = j :: rest → j.state = JobState.Running →
      q.finish ns out err t ≠ PanicOr.panic) := by
  refine ⟨?_, ?_, ?_⟩
  · intro hq
    simp [JobQueue.finish, hq]
  · intro j rest hq hs
    simp [JobQueue.finish, hq, hs]
  · intro j rest hq hs
    simp [JobQueue.finish, hq, hs]

theorem claim_C9_counterexample :
    (JobQueue.new 0).finish (JobState.Terminated 0) "" "" ⟨0, 0⟩ =
      PanicOr.ok (JobQueue.new 0, none) := rfl

theorem claim_C9_witness :
    (JobQueue.new 3).finish (JobState.Terminated 0) "" "" ⟨0, 0⟩ =
      PanicOr.ok (JobQueue.new 3, none) ∧
    qSub.finish (JobState.Terminated 0) "" "" ⟨0, 0⟩ = PanicOr.panic ∧
    qRun.finish (JobState.Terminated 0) "" "" ⟨0, 0⟩ ≠ PanicOr.panic :=
  ⟨(claim_C9 (JobQueue.new 3) (JobState.Terminated 0) "" "" ⟨0, 0⟩).1 rfl,
   (claim_C9 qSub (JobState.Terminated 0) "" "" ⟨0, 0⟩).2.1 jSub [] rfl
     (by decide),
   (claim_C9 qRun (JobState.Terminated 0) "" "" ⟨0, 0⟩).2.2 jRun [] rfl rfl⟩

/-- C10: when the queue holds the `Running` job with the given id but its
`pid` is still `None` (a `KillJob` racing ahead of `assign_pid`),
`send_sigterm` hits the `pid.unwrap()` panic instead of returning an error;
the `InvalidInput` error is returned exactly when no `Running` job with that
id exists. -/
theorem claim_C10 (q : JobQueue) (id : Nat) :
    (∀ j, j ∈ q.queue → j.state = JobState.Running → j.id = id →
      j.pid = none →
      (∀ j', j' ∈ q.queue → j'.state = JobState.Running → j' = j) →
      q.send_sigterm_outcome id = SigtermOutcome.panicNoPid) ∧
    (q.send_sigterm_outcome id = SigtermOutcome.errNotFound ↔
      ∀ j ∈ q.queue, ¬ (j.state = JobState.Running ∧ j.id = id)) := by
  constructor
  · intro j hmem hrun hid hpid huniq
    rcases hf : q.queue.find?
        (fun x => decide (x.state = JobState.Running) && decide (x.id = id))
        with _ | j₀
    · exfalso
      have := List.find?_eq_none.1 hf j hmem
      simp [hrun, hid] at this
    · have hpred := List.find?_some hf
      simp only [Bool.and_eq_true, decide_eq_true_eq] at hpred
      have hj₀mem := List.mem_of_find?_eq_some hf
      have hj₀ : j₀ = j := huniq j₀ hj₀mem hpred.1
      subst hj₀
      simp [JobQueue.send_sigterm_outcome, hf, hpid]
  · constructor
    · intro hout j hmem hand
      rcases hf : q.queue.find?
          (fun x => decide (x.state = JobState.Running) && decide (x.id = id))
          with _ | j₀
      · have := List.find?_eq_none.1 hf j hmem
        simp [hand.1, hand.2] at this
      · rcases hp : j₀.pid with _ | p
        · simp [JobQueue.send_sigterm_outcome, hf, hp] at hout
        · simp [JobQueue.send_sigterm_outcome, hf, hp] at hout
    · intro hall
      have hf : q.queue.find?
          (fun x => decide (x.state = JobState.Running) && decide (x.id = id))
          = none := by
        rw [List.find?_eq_none]
        intro x hx
        simp only [Bool.and_eq_true, decide_eq_true_eq]
        intro hand
        exact hall x hx hand
      simp [JobQueue.send_sigterm_outcome, hf]

theorem claim_C10_witness :
    qRun.send_sigterm_outcome 1 = SigtermOutcome.panicNoPid ∧
    qRun.send_sigterm_outcome 2 = SigtermOutcome.errNotFound :=
  ⟨(claim_C10 qRun 1).1 jRun (by decide) rfl rfl rfl (by decide),
   (claim_C10 qRun 2).2.mpr (by decide)⟩
